import Mathlib

/-!
Verification of the liteline chat backend core against its specification.

The development shallowly embeds the server-side core — the Redis cache
adapter (`redis.ts`), the database adapter (`database.ts`), and the chat
service (`chat.ts`) — as pure Lean functions over explicit state.

Modelling conventions:
* ids are `Nat`, timestamps are `Int` milliseconds (JS `Date.now()`).
* The messages table of the relational store is a `List Message` in
  `created_at` order (oldest first); `ORDER BY created_at DESC` is its
  reversal, `WHERE` clauses are `List.filter`, `LIMIT n` is `List.take n`.
* A Redis list is a `List Message` (head = index 0, i.e. newest first for
  the recent-message cache); a Redis set is a duplicate-free `List Nat`;
  a Redis hash keyed by user id is an association list.
* Fallible cache calls are modelled with `Except`; which call fails is
  driven by an explicit failure schedule so that error paths are ordinary
  inputs of the embedded functions.
* `bcrypt` hashing/compare is modelled as storing the plaintext passcode
  and comparing with string equality.
-/

namespace Liteline

/-- Message kind: column `message_type` ∈ {text, system}. -/
inductive MsgType where
  | text
  | system
deriving DecidableEq, Repr

/-- A row of the `messages` table, joined with the username of the author, as
returned by the DB adapter (`id, room_id, user_id, username, content,
message_type, created_at`). -/
structure Message where
  id : Nat
  roomId : Nat
  userId : Nat
  username : String
  content : String
  mtype : MsgType
  timestamp : Int
deriving DecidableEq, Repr

/-- Paginated result of `DatabaseService.getMessagesFromDB`. -/
structure MessageResponse where
  messages : List Message
  hasMore : Bool
  nextCursor : Option Nat
deriving DecidableEq, Repr

/-- The newest `n` entries of a chronological list, still in chronological
order (the `n`-element suffix). -/
def takeNewest (n : Nat) (l : List Message) : List Message :=
  (l.reverse.take n).reverse

/-- State touched by the message pipeline: the DB message log (chronological,
i.e. `created_at` ascending), the Redis recent-message list of the room under
consideration (newest first), and the `users` table restricted to id/username. -/
structure ChatState where
  log : List Message
  cache : List Message
  users : List (Nat × String)
deriving DecidableEq, Repr

/-- The DB log restricted to one room (`WHERE room_id = $1`), chronological. -/
def roomLog (log : List Message) (roomId : Nat) : List Message :=
  log.filter (fun m => m.roomId == roomId)

/-! ## Redis adapter (`redis.ts`) -/

/-- `RECENT_MESSAGE_LIMIT` in `RedisService`. -/
def RECENT_MESSAGE_LIMIT : Nat := 100

/-- `RedisService.storeMessageInCache`: one pipeline performing
`LPUSH key msg; LTRIM key 0 99; EXPIRE key 86400`.  `LPUSH` is cons,
`LTRIM 0 (K-1)` is `take K`; the TTL refresh does not affect contents. -/
def storeMessageInCache (cache : List Message) (m : Message) : List Message :=
  (m :: cache).take RECENT_MESSAGE_LIMIT

/-- `LRANGE key 0 (limit-1)`: for `limit ≥ 1` the first `limit` entries; for
`limit = 0` the stop index is `-1`, which in Redis means the whole list. -/
def lrangeTake (cache : List Message) (limit : Nat) : List Message :=
  if limit = 0 then cache else cache.take limit

/-- `RedisService.getRecentMessagesFromCache`: `LRANGE 0 (limit-1)` then
`reverse`, returning chronological order. -/
def getRecentMessagesFromCache (cache : List Message) (limit : Nat) : List Message :=
  (lrangeTake cache limit).reverse

/-- `RedisService.getRecentMessageCount`: `LLEN`. -/
def getRecentMessageCount (cache : List Message) : Nat :=
  cache.length

/-! ## Database adapter (`database.ts`) -/

/-- The `SELECT created_at FROM messages WHERE id = $1` lookup used to
resolve a pagination cursor (note: no room filter in the source query). -/
def findMessageById (log : List Message) (mid : Nat) : Option Message :=
  log.find? (fun m => m.id == mid)

/-- Shared tail of `DatabaseService.getMessagesFromDB`: given the rows of the
query (newest first, `LIMIT limit+1` already applied), compute
`hasMore = rows.length > limit`, keep `rows.slice(0, limit)`, reverse to
chronological order, and set `nextCursor` to the id of the oldest kept row
when `hasMore`. -/
def finishPage (rows : List Message) (limit : Nat) : MessageResponse :=
  let hasMore := decide (rows.length > limit)
  let kept := rows.take limit
  { messages := kept.reverse
    hasMore := hasMore
    nextCursor := if hasMore then (kept.getLast?).map (fun m => m.id) else none }

/-- `DatabaseService.getMessagesFromDB roomId limit before?`.  With a cursor:
resolve the cursor id to its row (empty response with `hasMore = false` if it
does not resolve), then
`WHERE room_id = $1 AND created_at < $2 ORDER BY created_at DESC LIMIT limit+1`.
Without a cursor: same query without the timestamp bound. -/
def getMessagesFromDB (log : List Message) (roomId : Nat) (limit : Nat)
    (before : Option Nat) : MessageResponse :=
  match before with
  | some bid =>
    match findMessageById log bid with
    | none => { messages := [], hasMore := false, nextCursor := none }
    | some bmsg =>
      let rows :=
        ((log.filter (fun m => m.roomId == roomId && m.timestamp < bmsg.timestamp)).reverse).take
          (limit + 1)
      finishPage rows limit
  | none =>
    let rows := ((roomLog log roomId).reverse).take (limit + 1)
    finishPage rows limit

/-- `DatabaseService.getRecentMessagesFromDB`:
`WHERE room_id = $1 ORDER BY created_at DESC LIMIT limit`, then reversed to
chronological order. -/
def getRecentMessagesFromDB (log : List Message) (roomId : Nat) (limit : Nat) :
    List Message :=
  (((roomLog log roomId).reverse).take limit).reverse

/-- `DatabaseService.storeMessage`: `INSERT INTO messages ... RETURNING ...`,
then a username lookup (`user?.username || "Unknown"`; JS `||` also replaces
an empty username).  The DB assigns the new id and the `now()` timestamp;
they enter the model as explicit parameters. -/
def storeMessage (st : ChatState) (roomId userId : Nat) (content : String)
    (mtype : MsgType) (newId : Nat) (now : Int) : Message × ChatState :=
  let uname :=
    match (st.users.find? (fun p => p.1 == userId)).map (fun p => p.2) with
    | none => "Unknown"
    | some u => if u = "" then "Unknown" else u
  let m : Message :=
    { id := newId, roomId := roomId, userId := userId, username := uname
      content := content, mtype := mtype, timestamp := now }
  (m, { st with log := st.log ++ [m] })

/-! ## Chat service message pipeline (`chat.ts`) -/

/-- Which cache call of a `getRecentMessages` invocation throws: `readFails`
makes the initial `LRANGE` reject; `storeFailAt = some k` makes the `k`-th
`storeMessageInCache` of the cache-seeding loop reject.  `⟨false, none⟩` is
the fault-free schedule. -/
structure CacheBehavior where
  readFails : Bool
  storeFailAt : Option Nat
deriving DecidableEq, Repr

/-- Fault-free cache schedule. -/
def noFault : CacheBehavior := ⟨false, none⟩

/-- The seeding loop of `getRecentMessages` (`for (...) await storeMessageInCache`):
pushes the chronological DB rows one by one; on the scheduled failure the
loop aborts, leaving the partially seeded cache (carried in the error). -/
def seedLoop : Option Nat → List Message → List Message →
    Except (List Message) (List Message)
  | _, cache, [] => Except.ok cache
  | some 0, cache, _ :: _ => Except.error cache
  | some (k + 1), cache, m :: ms => seedLoop (some k) (storeMessageInCache cache m) ms
  | none, cache, m :: ms => seedLoop none (storeMessageInCache cache m) ms

/-- The `try` block of `ChatService.getRecentMessages`: serve from cache when
it has at least one entry, stitching `limit - cached.length` strictly-older
rows from the DB in front when the cache is short; on an empty cache read the
newest `limit` rows from the DB and seed the cache with them.  An error
carries the state at the point of the throw. -/
def getRecentMessagesTry (cb : CacheBehavior) (st : ChatState) (roomId limit : Nat) :
    Except ChatState (List Message × ChatState) :=
  if cb.readFails then Except.error st
  else
    let cached := getRecentMessagesFromCache st.cache limit
    match cached with
    | oldest :: _ =>
      if cached.length ≥ limit then Except.ok (cached.take limit, st)
      else
        let remainingLimit := limit - cached.length
        let dbResult := getMessagesFromDB st.log roomId remainingLimit (some oldest.id)
        Except.ok (dbResult.messages ++ cached, st)
    | [] =>
      let dbMessages := getRecentMessagesFromDB st.log roomId limit
      match seedLoop cb.storeFailAt st.cache dbMessages with
      | Except.error c => Except.error { st with cache := c }
      | Except.ok c => Except.ok (dbMessages, { st with cache := c })

/-- `ChatService.getRecentMessages`: the `try` block with its `catch`, which
falls back to a DB-only read of the newest `limit` rows. -/
def getRecentMessages (cb : CacheBehavior) (st : ChatState) (roomId limit : Nat) :
    List Message × ChatState :=
  match getRecentMessagesTry cb st roomId limit with
  | Except.ok r => r
  | Except.error st1 => (getRecentMessagesFromDB st1.log roomId limit, st1)

/-- Server-to-client events emitted through the socket layer; the emit calls
are synchronous fire-and-forget (`io.to(room).emit(...)`), so they appear as
values produced by a call, never as a failure. -/
inductive RoomEvent where
  | newMessage (roomId : Nat) (m : Message)
deriving DecidableEq, Repr

/-- `ChatService.createMessage`: store the row in the DB (`storeMessage`),
push it into the Redis cache, emit `room_update {type: new_message}`.
There is no try/catch in the source: a rejected cache push propagates to the
caller, with the DB row already persisted (the error carries that state).
`cacheFails` says whether the cache push rejects. -/
def createMessage (cacheFails : Bool) (st : ChatState) (roomId userId : Nat)
    (content : String) (mtype : MsgType) (newId : Nat) (now : Int) :
    Except ChatState (Message × ChatState × List RoomEvent) :=
  let dbres := storeMessage st roomId userId content mtype newId now
  if cacheFails then Except.error dbres.2
  else
    Except.ok (dbres.1,
      { dbres.2 with cache := storeMessageInCache dbres.2.cache dbres.1 },
      [RoomEvent.newMessage roomId dbres.1])

/-- `ChatService.getMessages`: first page (`before` absent) serves the hybrid
recent read, probes the DB with `getMessagesFromDB(roomId, 1, oldestReturnedId)`
for `hasMore`, and sets `nextCursor` to the oldest returned id; a subsequent
page (`before` present) goes straight to `getMessagesFromDB`.  The
`getRecentMessageCount` call of the source is kept although its result is
unused there. -/
def getMessages (cb : CacheBehavior) (st : ChatState) (roomId limit : Nat)
    (before : Option Nat) : MessageResponse × ChatState :=
  match before with
  | none =>
    let res := getRecentMessages cb st roomId limit
    let _totalInCache := getRecentMessageCount res.2.cache
    let dbResult := getMessagesFromDB res.2.log roomId 1 (res.1.head?.map (fun m => m.id))
    ({ messages := res.1
       hasMore := dbResult.hasMore
       nextCursor := res.1.head?.map (fun m => m.id) }, res.2)
  | some b => (getMessagesFromDB st.log roomId limit (some b), st)

/-! ### First sanity checks and claim C7 -/

/-- Helper: `List.take` never lengthens a list. -/
theorem storeMessageInCache_length_le (cache : List Message) (m : Message) :
    (storeMessageInCache cache m).length ≤ RECENT_MESSAGE_LIMIT := by
  simp [storeMessageInCache]

/-- C7: for every room and every sequence of cache writes starting from a
list of at most K entries (in particular the empty list), the recent-message
list never exceeds K = 100 entries: each `storeMessageInCache` is the pipeline
`LPUSH; LTRIM 0 99; EXPIRE`, so the bound holds after every write — and since
every moment of a write sequence is the end of some such sequence, at every
moment (the TTL refresh does not change contents). -/
theorem cache_length_le_100 (writes : List Message) (init : List Message)
    (hinit : init.length ≤ RECENT_MESSAGE_LIMIT) :
    (writes.foldl storeMessageInCache init).length ≤ 100 := by
  induction writes generalizing init with
  | nil => simpa [RECENT_MESSAGE_LIMIT] using hinit
  | cons m ms ih =>
    exact ih (storeMessageInCache init m) (storeMessageInCache_length_le init m)

/-- Witness for C7 at a concrete write sequence. -/
theorem cache_length_le_100_witness :
    (([({ id := 1, roomId := 1, userId := 1, username := "a", content := "x",
          mtype := MsgType.text, timestamp := 5 } : Message)]).foldl
        storeMessageInCache []).length ≤ 100 :=
  cache_length_le_100 _ [] (by simp)

/-! ### Claim C2: cache-push failure in `createMessage` -/

/-- C2 counterexample: with the DB append succeeding and the cache push
rejecting, `createMessage` does NOT return the persisted message — it rejects,
and the error state shows the row was nevertheless persisted.  This refutes
the claim that a cache-push failure never fails the operation. -/
theorem createMessage_cacheFail_rejects :
    createMessage true ⟨[], [], [(2, "bob")]⟩ 1 2 "hi" MsgType.text 10 5 =
      Except.error
        ⟨[{ id := 10, roomId := 1, userId := 2, username := "bob", content := "hi",
            mtype := MsgType.text, timestamp := 5 }], [], [(2, "bob")]⟩ := by
  rfl

/-- C2 amended: when the cache push succeeds, `createMessage` returns the
persisted message (the row appended to the DB log) together with the single
`new_message` emit — the emit is fire-and-forget and cannot fail the
operation; when the cache push fails, the call rejects even though the DB row
was already persisted. -/
theorem createMessage_ok_and_fail_cases (st : ChatState) (roomId userId newId : Nat)
    (content : String) (mtype : MsgType) (now : Int) :
    (createMessage false st roomId userId content mtype newId now =
       Except.ok ((storeMessage st roomId userId content mtype newId now).1,
         { (storeMessage st roomId userId content mtype newId now).2 with
             cache := storeMessageInCache st.cache
               (storeMessage st roomId userId content mtype newId now).1 },
         [RoomEvent.newMessage roomId
            (storeMessage st roomId userId content mtype newId now).1])) ∧
    (createMessage true st roomId userId content mtype newId now =
       Except.error (storeMessage st roomId userId content mtype newId now).2) ∧
    (storeMessage st roomId userId content mtype newId now).2.log =
      st.log ++ [(storeMessage st roomId userId content mtype newId now).1] := by
  refine ⟨rfl, rfl, ?_⟩
  simp [storeMessage]

/-! ### Claim C10: cache outage and the recent-read fallback -/

/-- The seeding loop aborts exactly when the failure schedule points inside
the seeded list. -/
theorem seedLoop_error_of_lt (k : Nat) (cache msgs : List Message)
    (h : k < msgs.length) :
    ∃ c, seedLoop (some k) cache msgs = Except.error c := by
  induction msgs generalizing k cache with
  | nil => simp at h
  | cons m ms ih =>
    cases k with
    | zero => exact ⟨cache, rfl⟩
    | succ k =>
      exact ih k (storeMessageInCache cache m) (Nat.lt_of_succ_lt_succ h)

/-- C10: if a cache call inside `getRecentMessages` throws — the initial
cache read, or one of the seeding stores actually reached on the empty-cache
path — the function returns the DB fallback: the `limit` newest rows of the
room, in chronological order, instead of propagating the error. -/
theorem getRecentMessages_fallback (cb : CacheBehavior) (st : ChatState)
    (roomId limit : Nat)
    (h : cb.readFails = true ∨
      (st.cache = [] ∧ ∃ k, cb.storeFailAt = some k ∧
        k < (getRecentMessagesFromDB st.log roomId limit).length)) :
    (getRecentMessages cb st roomId limit).1 =
      takeNewest limit (roomLog st.log roomId) := by
  rcases h with h | ⟨hc, k, hk, hkl⟩
  · simp [getRecentMessages, getRecentMessagesTry, h, getRecentMessagesFromDB,
      takeNewest]
  · obtain ⟨c, hcerr⟩ :=
      seedLoop_error_of_lt k st.cache (getRecentMessagesFromDB st.log roomId limit) hkl
    rw [hc] at hcerr
    simp only [getRecentMessagesFromDB] at hcerr
    cases hrf : cb.readFails
    · simp [getRecentMessages, getRecentMessagesTry, hrf, hc, hk,
        getRecentMessagesFromCache, lrangeTake, hcerr, getRecentMessagesFromDB,
        takeNewest]
    · simp [getRecentMessages, getRecentMessagesTry, hrf, getRecentMessagesFromDB,
        takeNewest]

/-- Witness for C10: a failing cache read over a one-message room log. -/
theorem getRecentMessages_fallback_witness :
    (getRecentMessages ⟨true, none⟩
        ⟨[{ id := 1, roomId := 1, userId := 2, username := "bob", content := "hi",
            mtype := MsgType.text, timestamp := 5 }], [], []⟩ 1 50).1 =
      takeNewest 50 (roomLog
        [{ id := 1, roomId := 1, userId := 2, username := "bob", content := "hi",
           mtype := MsgType.text, timestamp := 5 }] 1) :=
  getRecentMessages_fallback _ _ _ _ (Or.inl rfl)

/-! ### Pagination lemmas and claims C4, C6 -/

/-- The messages of the room strictly older than timestamp `t` (chronological). -/
def olderThan (log : List Message) (roomId : Nat) (t : Int) : List Message :=
  (roomLog log roomId).filter (fun m => decide (m.timestamp < t))

/-- What `finishPage` makes of a fetch-N-plus-one query over a chronological
result set `l`: the newest `limit` entries in chronological order,
`hasMore ↔ more than limit entries qualified`, and the cursor pointing at the
oldest returned entry when `hasMore`. -/
theorem finishPage_spec (l : List Message) (limit : Nat) :
    finishPage (l.reverse.take (limit + 1)) limit =
      { messages := takeNewest limit l
        hasMore := decide (l.length > limit)
        nextCursor :=
          if l.length > limit then ((takeNewest limit l).head?).map (fun m => m.id)
          else none } := by
  have hmin : min limit (limit + 1) = limit := by omega
  have hlen : (l.reverse.take (limit + 1)).length = min (limit + 1) l.length := by
    simp [List.length_take]
  have hmore : (decide ((l.reverse.take (limit + 1)).length > limit)) =
      decide (l.length > limit) := by
    rw [hlen, decide_eq_decide.mpr (by omega : min (limit + 1) l.length > limit ↔ l.length > limit)]
  simp only [finishPage, List.take_take, hmin, hmore, takeNewest]
  refine congrArg (fun x => MessageResponse.mk ((l.reverse.take limit).reverse) _ x) ?_
  by_cases h : l.length > limit
  · simp [h, List.head?_reverse]
  · simp [h]

/-- Combined `WHERE` clause of the cursor query, split into the room filter
and the timestamp bound. -/
theorem filter_room_ts (log : List Message) (roomId : Nat) (t : Int) :
    log.filter (fun m => m.roomId == roomId && decide (m.timestamp < t)) =
      olderThan log roomId t := by
  simp [olderThan, roomLog, List.filter_filter, Bool.and_comm]

/-- The cursor query when the cursor resolves: the page is the response built
from the messages of the room strictly older than the cursor row. -/
theorem getMessagesFromDB_resolved (log : List Message) (roomId limit bid : Nat)
    (bmsg : Message) (hb : findMessageById log bid = some bmsg) :
    getMessagesFromDB log roomId limit (some bid) =
      { messages := takeNewest limit (olderThan log roomId bmsg.timestamp)
        hasMore := decide ((olderThan log roomId bmsg.timestamp).length > limit)
        nextCursor :=
          if (olderThan log roomId bmsg.timestamp).length > limit then
            ((takeNewest limit (olderThan log roomId bmsg.timestamp)).head?).map
              (fun m => m.id)
          else none } := by
  have := finishPage_spec (olderThan log roomId bmsg.timestamp) limit
  simp only [getMessagesFromDB, hb, filter_room_ts]
  exact this

/-- C6: `older(room, limit, before_id)` bypasses the cache.  When `before_id`
resolves to a DB row, the page is the `limit` newest messages of the room
strictly older than the timestamp of that row, in chronological order, with
`hasMore` true exactly when more than `limit` such messages exist (the
fetch-limit-plus-one trick) and `nextCursor` the oldest returned id when
`hasMore`; when `before_id` does not resolve the page is empty with
`hasMore = false`. -/
theorem getMessagesFromDB_older_page (log : List Message) (roomId limit bid : Nat) :
    (∀ bmsg, findMessageById log bid = some bmsg →
      getMessagesFromDB log roomId limit (some bid) =
        { messages := takeNewest limit (olderThan log roomId bmsg.timestamp)
          hasMore := decide ((olderThan log roomId bmsg.timestamp).length > limit)
          nextCursor :=
            if (olderThan log roomId bmsg.timestamp).length > limit then
              ((takeNewest limit (olderThan log roomId bmsg.timestamp)).head?).map
                (fun m => m.id)
            else none }) ∧
    (findMessageById log bid = none →
      getMessagesFromDB log roomId limit (some bid) =
        { messages := [], hasMore := false, nextCursor := none }) := by
  constructor
  · intro bmsg hb
    exact getMessagesFromDB_resolved log roomId limit bid bmsg hb
  · intro hb
    simp [getMessagesFromDB, hb]

/-- Witness for C6 on a two-message room: the older page below the newest
message returns the older message, no further pages. -/
theorem getMessagesFromDB_older_page_witness :
    getMessagesFromDB
        [{ id := 1, roomId := 1, userId := 2, username := "a", content := "m1",
           mtype := MsgType.text, timestamp := 10 },
         { id := 2, roomId := 1, userId := 2, username := "a", content := "m2",
           mtype := MsgType.text, timestamp := 20 }] 1 50 (some 2) =
      { messages := [{ id := 1, roomId := 1, userId := 2, username := "a", content := "m1",
                       mtype := MsgType.text, timestamp := 10 }],
        hasMore := false, nextCursor := none } := by
  have h := (getMessagesFromDB_older_page
    [{ id := 1, roomId := 1, userId := 2, username := "a", content := "m1",
       mtype := MsgType.text, timestamp := 10 },
     { id := 2, roomId := 1, userId := 2, username := "a", content := "m2",
       mtype := MsgType.text, timestamp := 20 }] 1 50 2).1
    { id := 2, roomId := 1, userId := 2, username := "a", content := "m2",
      mtype := MsgType.text, timestamp := 20 } (by decide)
  rw [h]
  decide

/-- C4 evidence: a room whose DB log holds strictly more than `limit`
messages (here 2 > 1) where the first page nevertheless reports
`hasMore = false`: with exactly one row older than the returned page, the
probe `getMessagesFromDB(roomId, 1, oldestReturnedId)` fetches `1 + 1` rows,
finds only one, and reports no more — contradicting the spec, and the
comment in the source that this call should check whether there are more
messages in the DB. -/
theorem getMessages_firstPage_hasMore_missing :
    (getMessages noFault
        ⟨[{ id := 1, roomId := 1, userId := 2, username := "a", content := "m1",
            mtype := MsgType.text, timestamp := 10 },
          { id := 2, roomId := 1, userId := 2, username := "a", content := "m2",
            mtype := MsgType.text, timestamp := 20 }], [], []⟩ 1 1 none).1 =
      { messages := [{ id := 2, roomId := 1, userId := 2, username := "a", content := "m2",
                       mtype := MsgType.text, timestamp := 20 }],
        hasMore := false, nextCursor := some 2 } ∧
    (roomLog
        [{ id := 1, roomId := 1, userId := 2, username := "a", content := "m1",
           mtype := MsgType.text, timestamp := 10 },
         { id := 2, roomId := 1, userId := 2, username := "a", content := "m2",
           mtype := MsgType.text, timestamp := 20 }] 1).length > 1 := by
  constructor
  · rfl
  · decide

/-! ### Claim C5: stitching a short cache with the DB -/

/-- With globally distinct message ids, the cursor lookup of a persisted
message resolves to that message. -/
theorem findMessageById_of_mem (log : List Message) (m : Message)
    (hids : (log.map (fun x => x.id)).Nodup) (hm : m ∈ log) :
    findMessageById log m.id = some m := by
  induction log with
  | nil => simp at hm
  | cons x xs ih =>
    rw [List.map_cons, List.nodup_cons] at hids
    rcases List.mem_cons.mp hm with rfl | hm2
    · exact List.find?_cons_of_pos _ (by simp)
    · by_cases hx : x.id = m.id
      · exact absurd (List.mem_map.mpr ⟨m, hm2, hx.symm⟩) hids.1
      · have hrec := ih hids.2 hm2
        simp only [findMessageById] at hrec ⊢
        rw [List.find?_cons_of_neg _ (by simp [hx])]
        exact hrec

/-- The newest-`n` suffix is a sublist. -/
theorem takeNewest_sublist (n : Nat) (l : List Message) :
    (takeNewest n l).Sublist l := by
  have h := (List.take_sublist n l.reverse).reverse
  simpa [takeNewest] using h

/-- C5: when the cache holds at least one but fewer than `limit` messages and
is a newest-first prefix of the chronological log of the room (the cache-prefix
invariant), `recent(room, limit)` returns `db_older ++ cached`, where
`db_older` is the `limit - len(cached)` newest room messages strictly older
than the oldest cached message, and no message id appears twice in the
result.  Timestamps are assumed non-decreasing along the log (DB `now()`
ordering) and message ids globally distinct. -/
theorem getRecentMessages_stitch (st : ChatState) (roomId limit : Nat)
    (oldest : Message)
    (hpre : st.cache <+: (roomLog st.log roomId).reverse)
    (hlen : st.cache.length < limit)
    (holdest : st.cache.getLast? = some oldest)
    (hsorted : (roomLog st.log roomId).Pairwise
      (fun a b => a.timestamp ≤ b.timestamp))
    (hids : (st.log.map (fun m => m.id)).Nodup) :
    (getRecentMessages noFault st roomId limit).1 =
      takeNewest (limit - st.cache.length)
          (olderThan st.log roomId oldest.timestamp) ++ st.cache.reverse ∧
    (((getRecentMessages noFault st roomId limit).1).map (fun m => m.id)).Nodup := by
  obtain ⟨rest, hrest⟩ := hpre
  have hrl2 : roomLog st.log roomId = rest.reverse ++ st.cache.reverse := by
    have h := congrArg List.reverse hrest
    simpa using h.symm
  -- the cache, read back in chronological order, is `st.cache.reverse`
  have hlimne : limit ≠ 0 := by omega
  have hcached : getRecentMessagesFromCache st.cache limit = st.cache.reverse := by
    simp [getRecentMessagesFromCache, lrangeTake, hlimne,
      List.take_of_length_le hlen.le]
  have hh : st.cache.reverse.head? = some oldest := by
    rw [List.head?_reverse]
    exact holdest
  obtain ⟨rest2, hc⟩ : ∃ t, st.cache.reverse = oldest :: t := by
    rcases hcv : st.cache.reverse with _ | ⟨a, t⟩
    · rw [hcv] at hh
      exact absurd hh (by simp)
    · rw [hcv] at hh
      simp only [List.head?_cons, Option.some.injEq] at hh
      exact ⟨t, by rw [hh]⟩
  have hlcache : st.cache.length = rest2.length + 1 := by
    have := congrArg List.length hc
    simpa using this
  -- the oldest cached message is persisted, so the cursor resolves to it
  have hmemrl : oldest ∈ roomLog st.log roomId := by
    rw [hrl2, hc]
    simp
  have hmem : oldest ∈ st.log := List.mem_of_mem_filter hmemrl
  have hfind : findMessageById st.log oldest.id = some oldest :=
    findMessageById_of_mem st.log oldest hids hmem
  have hdb := getMessagesFromDB_resolved st.log roomId
    (limit - st.cache.length) oldest.id oldest hfind
  -- reduce the hybrid read on this path
  have hnotfull : ¬ (oldest :: rest2).length ≥ limit := by
    have : (oldest :: rest2).length = st.cache.length := by
      rw [hlcache]
      simp
    omega
  have hres : (getRecentMessages noFault st roomId limit).1 =
      takeNewest (limit - st.cache.length)
          (olderThan st.log roomId oldest.timestamp) ++ st.cache.reverse := by
    rw [getRecentMessages, getRecentMessagesTry]
    simp only [noFault, Bool.false_eq_true, if_false, hcached, hc, hnotfull]
    have hlen2 : (oldest :: rest2).length = st.cache.length := by
      rw [hlcache]
      simp
    rw [hlen2, hdb]
  refine ⟨hres, ?_⟩
  rw [hres]
  -- no id occurs twice: the two segments are sublists of the log,
  -- separated by the strict timestamp boundary
  have hsub_older : (olderThan st.log roomId oldest.timestamp).Sublist st.log :=
    (List.filter_sublist _).trans (List.filter_sublist _)
  have hsub_db : (takeNewest (limit - st.cache.length)
      (olderThan st.log roomId oldest.timestamp)).Sublist st.log :=
    (takeNewest_sublist _ _).trans hsub_older
  have hsub_cache : st.cache.reverse.Sublist st.log := by
    have h1 : st.cache.reverse.Sublist (roomLog st.log roomId) := by
      rw [hrl2]
      exact List.sublist_append_right _ _
    exact h1.trans (List.filter_sublist _)
  have hts_cache : ∀ m ∈ st.cache.reverse, oldest.timestamp ≤ m.timestamp := by
    intro m hm
    rw [hrl2] at hsorted
    have hp := (List.pairwise_append.mp hsorted).2.1
    rw [hc] at hp hm
    rcases List.mem_cons.mp hm with rfl | hm2
    · exact le_refl _
    · exact (List.pairwise_cons.mp hp).1 m hm2
  have hts_db : ∀ m ∈ takeNewest (limit - st.cache.length)
      (olderThan st.log roomId oldest.timestamp), m.timestamp < oldest.timestamp := by
    intro m hm
    have hmo : m ∈ olderThan st.log roomId oldest.timestamp :=
      (takeNewest_sublist _ _).subset hm
    have := (List.mem_filter.mp hmo).2
    simpa using this
  rw [List.map_append, List.nodup_append]
  refine ⟨List.Nodup.sublist (List.Sublist.map _ hsub_db) hids,
    List.Nodup.sublist (List.Sublist.map _ hsub_cache) hids, ?_⟩
  intro a ha hb
  obtain ⟨m1, hm1, rfl⟩ := List.mem_map.mp ha
  obtain ⟨m2, hm2, hid⟩ := List.mem_map.mp hb
  have heq : m2 = m1 := List.inj_on_of_nodup_map hids
    (hsub_cache.subset hm2) (hsub_db.subset hm1) hid
  have h1 := hts_db m1 hm1
  have h2 := hts_cache m2 hm2
  rw [heq] at h2
  exact absurd (lt_of_lt_of_le h1 h2) (lt_irrefl _)

/-- Concrete example message (room 1, id 1, t = 10). -/
def exMsgA : Message :=
  { id := 1, roomId := 1, userId := 2, username := "a", content := "m1",
    mtype := MsgType.text, timestamp := 10 }

/-- Concrete example message (room 1, id 2, t = 20). -/
def exMsgB : Message :=
  { id := 2, roomId := 1, userId := 2, username := "a", content := "m2",
    mtype := MsgType.text, timestamp := 20 }

/-- Witness for C5: a two-message room whose cache holds only the newest
message; `recent(room, 2)` stitches the older one from the DB in front. -/
theorem getRecentMessages_stitch_witness :
    (getRecentMessages noFault ⟨[exMsgA, exMsgB], [exMsgB], []⟩ 1 2).1 =
      takeNewest (2 - ([exMsgB] : List Message).length)
          (olderThan [exMsgA, exMsgB] 1 exMsgB.timestamp) ++
        ([exMsgB] : List Message).reverse ∧
    (((getRecentMessages noFault ⟨[exMsgA, exMsgB], [exMsgB], []⟩ 1 2).1).map
        (fun m => m.id)).Nodup :=
  getRecentMessages_stitch ⟨[exMsgA, exMsgB], [exMsgB], []⟩ 1 2 exMsgB
    ⟨[exMsgA], by decide⟩ (by decide) (by decide) (by decide) (by decide)

/-! ## Shared fast-store primitives

Redis hashes keyed by user id are association lists; a field write of the
full record (`HSET`) replaces the entry or appends it. -/

/-- `HGETALL`-style lookup in an association list. -/
def alookup {α : Type} (l : List (Nat × α)) (k : Nat) : Option α :=
  (l.find? (fun p => p.1 == k)).map (fun p => p.2)

/-- `HSET` of a full record: replace the entry for `k`, or append it. -/
def aset {α : Type} (l : List (Nat × α)) (k : Nat) (v : α) : List (Nat × α) :=
  if l.any (fun p => p.1 == k) then
    l.map (fun p => if p.1 == k then (k, v) else p)
  else l ++ [(k, v)]

/-- Presence hash record (`presence:<userId>`): status, last-seen, and the
serialized active-rooms list. -/
inductive PStatus where
  | online
  | offline
deriving DecidableEq, Repr

/-- Per-user presence record as stored in the fast store. -/
structure UserPresence where
  username : String
  status : PStatus
  lastSeen : Int
  activeRooms : List Nat
deriving DecidableEq, Repr

/-- JS `[...new Set(xs)]`: deduplicate keeping first occurrences in order. -/
def jsSetDedup : List Nat → List Nat
  | [] => []
  | x :: xs => x :: jsSetDedup (xs.filter (fun y => !(y == x)))
termination_by l => l.length
decreasing_by
  simp only [List.length_cons]
  exact Nat.lt_succ_of_le (List.length_filter_le _ _)

/-! ## Room membership and `joinRoom` (`chat.ts` / `database.ts`) -/

/-- A row of the `rooms` table; `passcode` models `passcode_hash` (bcrypt is
modelled as storing the plaintext and comparing with string equality),
`none` when the column is NULL. -/
structure Room where
  id : Nat
  name : String
  isPrivate : Bool
  passcode : Option String
deriving DecidableEq, Repr

/-- A row of `room_memberships` (the `joined_at` column is not needed by the
claims under study). -/
structure Membership where
  userId : Nat
  roomId : Nat
  isActive : Bool
deriving DecidableEq, Repr

/-- State touched by the join flow: the `rooms` and `room_memberships`
tables, the Redis `room:<id>:users` sets (as (roomId, userId) pairs), and
the presence hashes. -/
structure JState where
  rooms : List Room
  memberships : List Membership
  roomUsers : List (Nat × Nat)
  presences : List (Nat × UserPresence)
deriving DecidableEq, Repr

/-- `DatabaseService.getRoomByName` (the member-count aggregate does not
matter here). -/
def getRoomByName (st : JState) (roomName : String) : Option Room :=
  st.rooms.find? (fun r => r.name == roomName)

/-- `DatabaseService.isUserInRoom`:
`SELECT 1 FROM room_memberships WHERE user_id=$1 AND room_id=$2 AND is_active`. -/
def isUserInRoom (st : JState) (userId roomId : Nat) : Bool :=
  st.memberships.any (fun m => m.userId == userId && m.roomId == roomId && m.isActive)

/-- `DatabaseService.validateRoomPasscode`: look the room up by id with
`is_private = true`; fail when absent or when `passcode_hash` is falsy;
otherwise the bcrypt comparison (modelled as string equality). -/
def validateRoomPasscode (st : JState) (roomId : Nat) (passcode : String) : Bool :=
  match st.rooms.find? (fun r => r.id == roomId && r.isPrivate) with
  | none => false
  | some r =>
    match r.passcode with
    | none => false
    | some h => if h = "" then false else passcode == h

/-- `DatabaseService.addUserToRoom`: upsert of the membership row with
`is_active = true`. -/
def addUserToRoomDB (ms : List Membership) (userId roomId : Nat) : List Membership :=
  if ms.any (fun m => m.userId == userId && m.roomId == roomId) then
    ms.map (fun m =>
      if m.userId == userId && m.roomId == roomId then { m with isActive := true } else m)
  else ms ++ [{ userId := userId, roomId := roomId, isActive := true }]

/-- `RedisService.addUserToRoom`: `SADD room:<id>:users`, then update the
active-rooms list of the presence record (JS set-union keeping order) if the
presence hash exists. -/
def redisAddUserToRoom (st : JState) (userId roomId : Nat) : JState :=
  let ru :=
    if st.roomUsers.any (fun p => p == (roomId, userId)) then st.roomUsers
    else st.roomUsers ++ [(roomId, userId)]
  match alookup st.presences userId with
  | none => { st with roomUsers := ru }
  | some p =>
    { st with
        roomUsers := ru
        presences := aset st.presences userId
          { p with activeRooms := jsSetDedup (p.activeRooms ++ [roomId]) } }

/-- REST error codes reachable from `ChatService.joinRoom`. -/
inductive ErrCode where
  | NOT_FOUND
  | PASSCODE_REQUIRED
  | INVALID_PASSCODE
deriving DecidableEq, Repr

/-- The value resolved by `ChatService.joinRoom` (the error message strings
are elided; `room` is populated exactly where the source includes it). -/
structure JoinResult where
  success : Bool
  alreadyJoined : Option Bool
  errorCode : Option ErrCode
  room : Option Room
deriving DecidableEq, Repr

/-- `ChatService.joinRoom`: resolve the room by name; short-circuit success
when the caller is already an active member; for a private room demand a
passcode (JS truthiness: an absent or empty string passcode is "missing"),
validate it, and only then add the membership in the DB and in Redis. -/
def joinRoom (st : JState) (userId : Nat) (roomName : String)
    (passcode : Option String) : JoinResult × JState :=
  match getRoomByName st roomName with
  | none =>
    ({ success := false, alreadyJoined := none,
       errorCode := some ErrCode.NOT_FOUND, room := none }, st)
  | some room =>
    let alreadyJoined := isUserInRoom st userId room.id
    if alreadyJoined then
      ({ success := true, alreadyJoined := some true, errorCode := none,
         room := some room }, st)
    else
      let proceed : Unit → JoinResult × JState := fun _ =>
        ({ success := true, alreadyJoined := some false, errorCode := none,
           room := some room },
         redisAddUserToRoom
           { st with memberships := addUserToRoomDB st.memberships userId room.id }
           userId room.id)
      if room.isPrivate then
        match passcode with
        | none =>
          ({ success := false, alreadyJoined := some false,
             errorCode := some ErrCode.PASSCODE_REQUIRED, room := none }, st)
        | some pc =>
          if pc = "" then
            ({ success := false, alreadyJoined := some false,
               errorCode := some ErrCode.PASSCODE_REQUIRED, room := none }, st)
          else if validateRoomPasscode st room.id pc then proceed ()
          else
            ({ success := false, alreadyJoined := some false,
               errorCode := some ErrCode.INVALID_PASSCODE, room := none }, st)
      else proceed ()

/-! ### Claims C8 and C9: joining a private room -/

/-- The Redis half of the join only touches room sets and presences. -/
theorem redisAddUserToRoom_memberships (st : JState) (u r : Nat) :
    (redisAddUserToRoom st u r).memberships = st.memberships := by
  unfold redisAddUserToRoom
  cases alookup st.presences u <;> simp

/-- The membership upsert leaves the user an active member. -/
theorem addUserToRoomDB_active (ms : List Membership) (u r : Nat) :
    (addUserToRoomDB ms u r).any
      (fun m => m.userId == u && m.roomId == r && m.isActive) = true := by
  unfold addUserToRoomDB
  by_cases h : ms.any (fun m => m.userId == u && m.roomId == r) = true
  · rw [if_pos h, List.any_eq_true]
    obtain ⟨m, hm, hmp⟩ := List.any_eq_true.mp h
    refine ⟨{ m with isActive := true },
      List.mem_map.mpr ⟨m, hm, by rw [if_pos hmp]⟩, ?_⟩
    simp only [Bool.and_eq_true, beq_iff_eq] at hmp
    simp [hmp.1, hmp.2]
  · rw [if_neg h, List.any_eq_true]
    exact ⟨{ userId := u, roomId := r, isActive := true }, by simp, by simp⟩

/-- C8: a non-member joining a private room (whose stored credential is the
non-empty `pw`): with no passcode the call fails with `PASSCODE_REQUIRED` and
the state — in particular the membership table — is untouched; with a wrong
passcode it fails with `INVALID_PASSCODE`, state untouched; with the correct
passcode it succeeds and the user becomes an active member.  (A supplied
empty-string passcode is treated as missing by JS truthiness; `pw ≠ ""`
reflects the invariant that a private room has a non-null credential hash.) -/
theorem joinRoom_private_passcode (st : JState) (userId : Nat) (roomName : String)
    (room : Room) (pw : String)
    (hroom : getRoomByName st roomName = some room)
    (hnm : isUserInRoom st userId room.id = false)
    (hpriv : room.isPrivate = true)
    (hfind : st.rooms.find? (fun r => r.id == room.id && r.isPrivate) = some room)
    (hpc : room.passcode = some pw)
    (hpw : pw ≠ "") :
    (joinRoom st userId roomName none =
      ({ success := false, alreadyJoined := some false,
         errorCode := some ErrCode.PASSCODE_REQUIRED, room := none }, st)) ∧
    (∀ q, q ≠ "" → q ≠ pw →
      joinRoom st userId roomName (some q) =
        ({ success := false, alreadyJoined := some false,
           errorCode := some ErrCode.INVALID_PASSCODE, room := none }, st)) ∧
    ((joinRoom st userId roomName (some pw)).1 =
      { success := true, alreadyJoined := some false, errorCode := none,
        room := some room } ∧
      isUserInRoom (joinRoom st userId roomName (some pw)).2 userId room.id = true) := by
  have hval : validateRoomPasscode st room.id pw = true := by
    unfold validateRoomPasscode
    rw [hfind]
    simp [hpc, hpw]
  refine ⟨?_, ?_, ?_, ?_⟩
  · simp [joinRoom, hroom, hnm, hpriv]
  · intro q hq hqpw
    have hvq : validateRoomPasscode st room.id q = false := by
      unfold validateRoomPasscode
      rw [hfind]
      simp [hpc, hpw, hqpw]
    simp [joinRoom, hroom, hnm, hpriv, hq, hvq]
  · simp [joinRoom, hroom, hnm, hpriv, hpw, hval]
  · simp only [joinRoom, hroom, hnm, hpriv]
    simp only [Bool.false_eq_true, if_false, if_true, hpw, hval]
    unfold isUserInRoom
    rw [redisAddUserToRoom_memberships]
    exact addUserToRoomDB_active st.memberships userId room.id

/-- Example private room with credential "p". -/
def exRoom : Room := { id := 1, name := "general", isPrivate := true, passcode := some "p" }

/-- Join-flow state holding only `exRoom`, with no memberships. -/
def exPrivState : JState := { rooms := [exRoom], memberships := [], roomUsers := [], presences := [] }

/-- Witness for C8 on `exPrivState`. -/
theorem joinRoom_private_passcode_witness :
    (joinRoom exPrivState 5 "general" none).1.errorCode =
      some ErrCode.PASSCODE_REQUIRED ∧
    (joinRoom exPrivState 5 "general" (some "x")).1.errorCode =
      some ErrCode.INVALID_PASSCODE ∧
    (joinRoom exPrivState 5 "general" (some "p")).1.success = true := by
  have h := joinRoom_private_passcode exPrivState 5 "general" exRoom "p"
    (by decide) (by decide) (by decide) (by decide) (by decide) (by decide)
  exact ⟨by rw [h.1], by rw [h.2.1 "x" (by decide) (by decide)], by rw [h.2.2.1]⟩

/-- C9: a user who is already an active member gets
`{success: true, alreadyJoined: true}` immediately, for every supplied
passcode — absent, wrong or right — and the state (membership included) is
returned unchanged: no passcode validation is reached. -/
theorem joinRoom_alreadyJoined (st : JState) (userId : Nat) (roomName : String)
    (room : Room)
    (hroom : getRoomByName st roomName = some room)
    (halready : isUserInRoom st userId room.id = true) :
    ∀ passcode : Option String,
      joinRoom st userId roomName passcode =
        ({ success := true, alreadyJoined := some true, errorCode := none,
           room := some room }, st) := by
  intro pc
  simp [joinRoom, hroom, halready]

/-- Join-flow state where user 5 is an active member of `exRoom`. -/
def exJoinedState : JState :=
  { rooms := [exRoom],
    memberships := [{ userId := 5, roomId := 1, isActive := true }],
    roomUsers := [], presences := [] }

/-- Witness for C9 on `exJoinedState`, with a wrong passcode supplied to a
private room. -/
theorem joinRoom_alreadyJoined_witness :
    joinRoom exJoinedState 5 "general" (some "wrong") =
      ({ success := true, alreadyJoined := some true, errorCode := none,
         room := some exRoom }, exJoinedState) :=
  joinRoom_alreadyJoined exJoinedState 5 "general" exRoom (by decide) (by decide)
    (some "wrong")

/-! ## Presence engine and reaper (`redis.ts` / `chat.ts`)

The shared fast-store state seen by the reaper: the `online_users` set, the
`heartbeat:<userId>` keys and the presence hashes.  A reap pass follows
`RedisService.cleanupStaleUsers` — snapshot `SMEMBERS online_users` once, then
for each user of the snapshot read the heartbeat and, when it is falsy or
more than 60000 ms old, push the user onto `staleUsers` and `setUserOffline`
(flip the presence record and `SREM` from `online_users`). -/

/-- Fast-store state seen by the presence engine. -/
structure RState where
  online : List Nat
  heartbeats : List (Nat × Int)
  presences : List (Nat × UserPresence)
deriving DecidableEq, Repr

/-- `RedisService.getUserHeartbeat`: `GET heartbeat:<userId>`. -/
def getUserHeartbeat (st : RState) (u : Nat) : Option Int :=
  alookup st.heartbeats u

/-- `RedisService.setUserOffline`: flip the presence record to offline (when
it exists) and `SREM online_users <u>`. -/
def setUserOffline (now : Int) (st : RState) (u : Nat) : RState :=
  let st1 :=
    match alookup st.presences u with
    | some p =>
      let p1 := { p with status := PStatus.offline, lastSeen := now }
      { st with presences := aset st.presences u p1 }
    | none => st
  { st1 with online := st1.online.filter (fun v => !(v == u)) }

/-- The staleness test `!lastHeartbeat || now - lastHeartbeat > 60000` of the
source (JS truthiness: an absent key and the value 0 are both falsy; the
threshold is 60000 ms). -/
def staleCheck (now : Int) (hb : Option Int) : Bool :=
  match hb with
  | none => true
  | some t => t == 0 || decide (now - t > 60000)

/-- One iteration of the per-user loop of the reaper. -/
def reapStep (now : Int) (acc : List Nat × RState) (u : Nat) : List Nat × RState :=
  if staleCheck now (getUserHeartbeat acc.2 u) then
    (acc.1 ++ [u], setUserOffline now acc.2 u)
  else acc

/-- The reaper loop over a previously taken `SMEMBERS` snapshot. -/
def reapPass (snapshot : List Nat) (st : RState) (now : Int) : List Nat × RState :=
  snapshot.foldl (reapStep now) ([], st)

/-- `RedisService.cleanupStaleUsers`: snapshot the online set, run the loop,
return the stale users and the updated store. -/
def redisCleanupStaleUsers (st : RState) (now : Int) : List Nat × RState :=
  reapPass st.online st now

/-- Active rooms according to the presence hash (empty when the hash is
absent, mirroring the `if (presence)` guard of the emit loop). -/
def roomsOf (st : RState) (u : Nat) : List Nat :=
  match alookup st.presences u with
  | none => []
  | some p => p.activeRooms

/-- The emit loop of `ChatService.cleanupStaleUsers`: for each stale user
whose presence hash exists, emit `user_disconnected` to every room of its
active-rooms list.  An emit is identified by the pair (userId, roomId). -/
def emitLoop (st : RState) (stale : List Nat) : List (Nat × Nat) :=
  stale.foldl (fun acc u =>
    match alookup st.presences u with
    | none => acc
    | some p => acc ++ p.activeRooms.map (fun r => (u, r))) []

/-- `ChatService.cleanupStaleUsers` on one node: reap, then emit for the
users the reap returned. -/
def chatCleanupStaleUsers (st : RState) (now : Int) : List (Nat × Nat) × RState :=
  let res := redisCleanupStaleUsers st now
  (emitLoop res.2 res.1, res.2)

/-- Two reaper nodes racing on the shared store: both take their `SMEMBERS`
snapshot before either removes anybody, node 1 runs its loop, then node 2
runs its loop over its (stale) snapshot, then each node performs its emit
loop from its own `staleUsers` list.  The source never consults the result
of the `SREM`, so a user both nodes saw online is pushed onto both stale
lists. -/
def twoNodeReap (st : RState) (now : Int) :
    List (Nat × Nat) × List (Nat × Nat) × RState :=
  let r1 := reapPass st.online st now
  let r2 := reapPass st.online r1.2 now
  (emitLoop r2.2 r1.1, emitLoop r2.2 r2.1, r2.2)

/-! ### Association-list lemmas for the presence hash -/

/-- Unfolding `alookup` over a cons cell. -/
theorem alookup_cons {α : Type} (q : Nat × α) (qs : List (Nat × α)) (u : Nat) :
    alookup (q :: qs) u = if q.1 == u then some q.2 else alookup qs u := by
  cases h : q.1 == u <;> simp [alookup, List.find?_cons, h]

/-- A successful lookup means the key occurs. -/
theorem alookup_any {α : Type} (l : List (Nat × α)) (u : Nat) (v : α)
    (h : alookup l u = some v) : l.any (fun q => q.1 == u) = true := by
  unfold alookup at h
  cases hf : l.find? (fun q => q.1 == u) with
  | none => rw [hf] at h; simp at h
  | some e =>
    have hpe := List.find?_some hf
    exact List.any_eq_true.mpr ⟨e, List.mem_of_find?_eq_some hf, hpe⟩

/-- Replacing the entries keyed `u` makes the lookup of `u` return the new
payload (provided the key occurs). -/
theorem alookup_map_self {α : Type} (l : List (Nat × α)) (u : Nat) (v : α)
    (h : l.any (fun q => q.1 == u) = true) :
    alookup (l.map (fun q => if q.1 == u then (u, v) else q)) u = some v := by
  induction l with
  | nil => simp at h
  | cons q qs ih =>
    rw [List.map_cons]
    by_cases hq : (q.1 == u) = true
    · rw [if_pos hq, alookup_cons]
      simp
    · rw [if_neg hq, alookup_cons, if_neg (by simpa using hq)]
      apply ih
      rcases List.any_eq_true.mp h with ⟨x, hx, hpx⟩
      rcases List.mem_cons.mp hx with rfl | hx2
      · exact absurd hpx hq
      · exact List.any_eq_true.mpr ⟨x, hx2, hpx⟩

/-- Replacing the entries keyed `u` does not change other lookups. -/
theorem alookup_map_ne {α : Type} (l : List (Nat × α)) (u : Nat) (v : α) (w : Nat)
    (hw : w ≠ u) :
    alookup (l.map (fun q => if q.1 == u then (u, v) else q)) w = alookup l w := by
  induction l with
  | nil => rfl
  | cons q qs ih =>
    rw [List.map_cons]
    by_cases hq : (q.1 == u) = true
    · have hq1 : q.1 = u := by simpa using hq
      rw [if_pos hq, alookup_cons, alookup_cons, hq1]
      have huw : ¬((u == w) = true) := by simpa using fun e => hw e.symm
      rw [if_neg huw, if_neg huw]
      exact ih
    · rw [if_neg hq, alookup_cons, alookup_cons]
      by_cases hqw : (q.1 == w) = true
      · simp only [if_pos hqw]
      · simp only [if_neg hqw]
        exact ih

/-- Appending a fresh entry does not change lookups of other keys. -/
theorem alookup_append_ne {α : Type} (l : List (Nat × α)) (u w : Nat) (v : α)
    (h : w ≠ u) : alookup (l ++ [(u, v)]) w = alookup l w := by
  induction l with
  | nil =>
    rw [List.nil_append, alookup_cons, if_neg (by simpa using fun e => h e.symm)]
  | cons q qs ih =>
    rw [List.cons_append, alookup_cons, alookup_cons]
    by_cases hqw : (q.1 == w) = true
    · simp only [if_pos hqw]
    · simp only [if_neg hqw]
      exact ih

/-- `aset` then lookup of the written key (key present beforehand). -/
theorem alookup_aset_self {α : Type} (l : List (Nat × α)) (u : Nat) (v : α)
    (h : l.any (fun q => q.1 == u) = true) :
    alookup (aset l u v) u = some v := by
  unfold aset
  rw [if_pos h]
  exact alookup_map_self l u v h

/-- `aset` then lookup of a different key. -/
theorem alookup_aset_ne {α : Type} (l : List (Nat × α)) (u : Nat) (v : α) (w : Nat)
    (hw : w ≠ u) : alookup (aset l u v) w = alookup l w := by
  unfold aset
  by_cases h : l.any (fun q => q.1 == u) = true
  · rw [if_pos h]
    exact alookup_map_ne l u v w hw
  · rw [if_neg h]
    exact alookup_append_ne l u w v hw

/-! ### Reap-pass structure lemmas -/

/-- `setUserOffline` never touches the heartbeat keys. -/
theorem setUserOffline_heartbeats (now : Int) (st : RState) (u : Nat) :
    (setUserOffline now st u).heartbeats = st.heartbeats := by
  unfold setUserOffline
  cases alookup st.presences u <;> simp

/-- `setUserOffline` is exactly the `SREM` on the online set. -/
theorem setUserOffline_online (now : Int) (st : RState) (u : Nat) :
    (setUserOffline now st u).online = st.online.filter (fun v => !(v == u)) := by
  unfold setUserOffline
  cases alookup st.presences u <;> simp

/-- `setUserOffline` preserves the active-rooms view of every user: it only flips
status and last-seen of the written presence record. -/
theorem roomsOf_setUserOffline (now : Int) (st : RState) (u v : Nat) :
    roomsOf (setUserOffline now st u) v = roomsOf st v := by
  unfold roomsOf setUserOffline
  cases hp : alookup st.presences u with
  | none => rfl
  | some p =>
    by_cases hv : v = u
    · subst hv
      rw [alookup_aset_self _ _ _ (alookup_any _ _ _ hp), hp]
    · rw [alookup_aset_ne _ _ _ _ hv]

/-- Full characterization of the reaper loop: the returned stale list is the
staleness filter of the snapshot (heartbeats are never written by the loop),
heartbeats and active-rooms views are preserved, and the final online set is
the original minus the stale users. -/
theorem reapFold_spec (now : Int) (l : List Nat) :
    ∀ (acc : List Nat) (s : RState),
      (l.foldl (reapStep now) (acc, s)).1 =
        acc ++ l.filter (fun u => staleCheck now (getUserHeartbeat s u)) ∧
      (l.foldl (reapStep now) (acc, s)).2.heartbeats = s.heartbeats ∧
      (∀ v, roomsOf (l.foldl (reapStep now) (acc, s)).2 v = roomsOf s v) ∧
      (l.foldl (reapStep now) (acc, s)).2.online =
        s.online.filter (fun v =>
          !((l.filter (fun u => staleCheck now (getUserHeartbeat s u))).contains v)) := by
  induction l with
  | nil =>
    intro acc s
    refine ⟨by simp, rfl, fun v => rfl, ?_⟩
    simp [List.contains]
  | cons u us ih =>
    intro acc s
    rw [List.foldl_cons]
    by_cases h : staleCheck now (getUserHeartbeat s u) = true
    · have hstep : reapStep now (acc, s) u = (acc ++ [u], setUserOffline now s u) := by
        simp [reapStep, h]
      rw [hstep]
      obtain ⟨h1, h2, h3, h4⟩ := ih (acc ++ [u]) (setUserOffline now s u)
      have hhb : ∀ w, getUserHeartbeat (setUserOffline now s u) w = getUserHeartbeat s w := by
        intro w
        unfold getUserHeartbeat
        rw [setUserOffline_heartbeats]
      have hfc := @List.filter_cons_of_pos _
        (fun w => staleCheck now (getUserHeartbeat s w)) u us h
      refine ⟨?_, ?_, ?_, ?_⟩
      · rw [h1, hfc]
        simp only [hhb]
        simp [List.append_assoc]
      · rw [h2, setUserOffline_heartbeats]
      · intro v
        rw [h3 v, roomsOf_setUserOffline]
      · rw [h4, setUserOffline_online, List.filter_filter, hfc]
        simp only [hhb]
        congr 1
        funext v
        by_cases hvu : v = u <;>
          simp [List.contains_cons, Bool.not_or, Bool.and_comm, hvu]
    · have hstep : reapStep now (acc, s) u = (acc, s) := by
        simp [reapStep, h]
      rw [hstep]
      obtain ⟨h1, h2, h3, h4⟩ := ih acc s
      have hfc := @List.filter_cons_of_neg _
        (fun w => staleCheck now (getUserHeartbeat s w)) u us h
      refine ⟨?_, h2, h3, ?_⟩
      · rw [h1, hfc]
      · rw [h4, hfc]

/-- The emit loop, as a flat map over the active rooms of the stale users. -/
theorem emitLoop_eq (s : RState) (l : List Nat) :
    emitLoop s l = l.flatMap (fun u => (roomsOf s u).map (fun r => (u, r))) := by
  suffices h : ∀ acc, l.foldl (fun acc u =>
      match alookup s.presences u with
      | none => acc
      | some p => acc ++ p.activeRooms.map (fun r => (u, r))) acc =
      acc ++ l.flatMap (fun u => (roomsOf s u).map (fun r => (u, r))) by
    simpa [emitLoop] using h []
  induction l with
  | nil => intro acc; simp
  | cons u us ih =>
    intro acc
    rw [List.foldl_cons]
    cases hp : alookup s.presences u with
    | none =>
      simp only [hp]
      rw [ih acc]
      simp [roomsOf, hp]
    | some p =>
      simp only [hp]
      rw [ih (acc ++ p.activeRooms.map (fun r => (u, r)))]
      simp [roomsOf, hp, List.append_assoc]

/-! ### Claims C1 and C3: the reaper -/

/-- Example store: user 7 online with no heartbeat key, presence listing
room 3. -/
def exReapState : RState :=
  { online := [7], heartbeats := [],
    presences := [(7, { username := "u", status := PStatus.online,
                        lastSeen := 0, activeRooms := [3] })] }

/-- C1 counterexample: two racing reaper nodes both emit `user_disconnected`
for (7, 3) on one offline transition.  Both snapshots were taken before
either removal; the pass of node 1 already removed 7 from the online set (third
conjunct), so the `srem` of node 2 removed nothing — yet node 2 still emits,
because the source pushes onto `staleUsers` without consulting the `srem`
result.  The emit is thus not gated by a successful removal, and the event is
not emitted by exactly one node. -/
theorem reaper_double_emit_counterexample :
    (twoNodeReap exReapState 1000000).1 = [(7, 3)] ∧
    (twoNodeReap exReapState 1000000).2.1 = [(7, 3)] ∧
    (reapPass exReapState.online exReapState 1000000).2.online = [] := by
  decide

/-- The staleness test, spelled out: the heartbeat key is absent, holds 0, or
is more than 60000 ms old. -/
theorem staleCheck_iff (now : Int) (hb : Option Int) :
    staleCheck now hb = true ↔
      (hb = none ∨ ∃ t, hb = some t ∧ (t = 0 ∨ now - t > 60000)) := by
  cases hb with
  | none => simp [staleCheck]
  | some t => simp [staleCheck]

/-- C1 amended: within a single reaper pass (duplicate-free online set,
duplicate-free active-room lists), `user_disconnected` for (U, R) is emitted
exactly once — the emit list has no duplicates and contains (U, R) iff U was
in the online snapshot of the pass with a stale heartbeat and R is among the
active rooms of U.  The emit is gated by the staleness check over the snapshot,
not by the `srem` result, so one emit per transition holds per node, not
across racing nodes (see the counterexample). -/
theorem cleanup_emits_characterization (st : RState) (now : Int)
    (hnd : st.online.Nodup)
    (hrooms : ∀ q ∈ st.presences, (q.2).activeRooms.Nodup) :
    ((chatCleanupStaleUsers st now).1).Nodup ∧
    (∀ u r, (u, r) ∈ (chatCleanupStaleUsers st now).1 ↔
      u ∈ st.online ∧ staleCheck now (getUserHeartbeat st u) = true ∧
        r ∈ roomsOf st u) := by
  obtain ⟨h1, _h2, h3, _h4⟩ := reapFold_spec now st.online [] st
  have hroomsOf : ∀ u, (roomsOf st u).Nodup := by
    intro u
    unfold roomsOf
    cases hp : alookup st.presences u with
    | none => exact List.nodup_nil
    | some p =>
      unfold alookup at hp
      cases hf : st.presences.find? (fun q => q.1 == u) with
      | none => rw [hf] at hp; simp at hp
      | some e =>
        rw [hf] at hp
        simp only [Option.map_some', Option.some.injEq] at hp
        rw [← hp]
        exact hrooms e (List.mem_of_find?_eq_some hf)
  have hemit : (chatCleanupStaleUsers st now).1 =
      (st.online.filter (fun u => staleCheck now (getUserHeartbeat st u))).flatMap
        (fun u => (roomsOf st u).map (fun r => (u, r))) := by
    unfold chatCleanupStaleUsers redisCleanupStaleUsers reapPass
    dsimp only
    rw [emitLoop_eq, h1]
    simp only [List.nil_append]
    have hfun : (fun u =>
        (roomsOf (List.foldl (reapStep now) ([], st) st.online).2 u).map
          (fun r => (u, r))) =
        (fun u => (roomsOf st u).map (fun r => (u, r))) := by
      funext u
      rw [h3 u]
    rw [hfun]
  rw [hemit]
  constructor
  · rw [List.nodup_flatMap]
    constructor
    · intro u _hu
      refine List.Nodup.map ?_ (hroomsOf u)
      intro a b hab
      simpa using congrArg Prod.snd hab
    · refine List.Pairwise.imp ?_ (hnd.filter _)
      intro a b hne x hxa hxb
      obtain ⟨r1, _hr1, hx1⟩ := List.mem_map.mp hxa
      obtain ⟨r2, _hr2, hx2⟩ := List.mem_map.mp hxb
      exact hne (congrArg Prod.fst (hx1.trans hx2.symm))
  · intro u r
    rw [List.mem_flatMap]
    constructor
    · rintro ⟨a, ha, hm⟩
      obtain ⟨r1, hr1, heq⟩ := List.mem_map.mp hm
      obtain ⟨rfl, rfl⟩ : a = u ∧ r1 = r :=
        ⟨congrArg Prod.fst heq, congrArg Prod.snd heq⟩
      rw [List.mem_filter] at ha
      exact ⟨ha.1, ha.2, hr1⟩
    · rintro ⟨hu, hs, hr⟩
      exact ⟨u, List.mem_filter.mpr ⟨hu, hs⟩, List.mem_map.mpr ⟨r, hr, rfl⟩⟩

/-- Witness for the single-pass emit characterization on `exReapState`. -/
theorem cleanup_emits_characterization_witness :
    ((chatCleanupStaleUsers exReapState 1000000).1).Nodup ∧
    ((7, 3) ∈ (chatCleanupStaleUsers exReapState 1000000).1 ↔
      7 ∈ exReapState.online ∧
        staleCheck 1000000 (getUserHeartbeat exReapState 7) = true ∧
        3 ∈ roomsOf exReapState 7) :=
  have h := cleanup_emits_characterization exReapState 1000000 (by decide) (by decide)
  ⟨h.1, h.2 7 3⟩

/-- Example store: user 7 online with a heartbeat 120 s old at `now`. -/
def exReapState2 : RState :=
  { online := [7], heartbeats := [(7, 880000)],
    presences := [(7, { username := "u", status := PStatus.online,
                        lastSeen := 0, activeRooms := [3] })] }

/-- C3 counterexample: the heartbeat is present and only 120 s old — not
older than the 180 s threshold the spec states — yet the reaper transitions
the user to offline (it is pushed onto the stale list and removed from the
online set): the threshold in the source is 60000 ms, not 180 s. -/
theorem reaper_reaps_within_180s :
    (redisCleanupStaleUsers exReapState2 1000000).1 = [7] ∧
    (redisCleanupStaleUsers exReapState2 1000000).2.online = [] ∧
    ¬((1000000 : Int) - 880000 > 180000) := by
  decide

/-- C3 amended: for every user of the online set, the reaper transitions the
user to offline — pushes it onto the stale list and removes it from the
online set — iff the heartbeat key is absent (or holds the falsy value 0) or
is more than 60 seconds (60000 ms) old at the time of the check; otherwise
the user stays online. -/
theorem reaper_offline_iff_stale60 (st : RState) (now : Int) (u : Nat)
    (hu : u ∈ st.online) :
    (u ∈ (redisCleanupStaleUsers st now).1 ↔
      (getUserHeartbeat st u = none ∨
        ∃ t, getUserHeartbeat st u = some t ∧ (t = 0 ∨ now - t > 60000))) ∧
    (u ∈ (redisCleanupStaleUsers st now).1 →
      u ∉ (redisCleanupStaleUsers st now).2.online) ∧
    (u ∉ (redisCleanupStaleUsers st now).1 →
      u ∈ (redisCleanupStaleUsers st now).2.online) := by
  obtain ⟨h1, _h2, _h3, h4⟩ := reapFold_spec now st.online [] st
  have hstale : (redisCleanupStaleUsers st now).1 =
      st.online.filter (fun w => staleCheck now (getUserHeartbeat st w)) := by
    unfold redisCleanupStaleUsers reapPass
    rw [h1]
    simp
  have honline : (redisCleanupStaleUsers st now).2.online =
      st.online.filter (fun v =>
        !((st.online.filter (fun w => staleCheck now (getUserHeartbeat st w))).contains v)) := by
    unfold redisCleanupStaleUsers reapPass
    rw [h4]
  have hmem : u ∈ (redisCleanupStaleUsers st now).1 ↔
      staleCheck now (getUserHeartbeat st u) = true := by
    rw [hstale, List.mem_filter]
    exact ⟨fun h => h.2, fun h => ⟨hu, h⟩⟩
  refine ⟨hmem.trans (staleCheck_iff now (getUserHeartbeat st u)), ?_, ?_⟩
  · intro hin
    rw [honline, List.mem_filter]
    rintro ⟨-, hcon⟩
    rw [hstale] at hin
    have : (st.online.filter (fun w => staleCheck now (getUserHeartbeat st w))).contains u = true :=
      List.elem_iff.mpr hin
    rw [this] at hcon
    simp at hcon
  · intro hout
    rw [honline, List.mem_filter]
    refine ⟨hu, ?_⟩
    rw [hstale] at hout
    have : (st.online.filter (fun w => staleCheck now (getUserHeartbeat st w))).contains u = false := by
      cases hc : (st.online.filter (fun w => staleCheck now (getUserHeartbeat st w))).contains u
      · rfl
      · exact absurd (List.elem_iff.mp hc) hout
    rw [this]
    rfl

/-- Witness for the 60-second staleness criterion: user 7 of `exReapState`
has no heartbeat key and is reaped. -/
theorem reaper_offline_iff_stale60_witness :
    7 ∈ (redisCleanupStaleUsers exReapState 1000000).1 ∧
    7 ∉ (redisCleanupStaleUsers exReapState 1000000).2.online :=
  have h := reaper_offline_iff_stale60 exReapState 1000000 7 (by decide)
  have hm : 7 ∈ (redisCleanupStaleUsers exReapState 1000000).1 :=
    h.1.mpr (Or.inl rfl)
  ⟨hm, h.2.1 hm⟩

end Liteline
